import Mathlib

/-!
Verification of the iron-archivist access-decision and request-dispatch engine.

Shallow embedding of the following source files:
- `src/config.rs`   : `Config`, `AccessMethod`, `Config::method_for`
- `src/archivist.rs`: `Archivist::handle`, `get_entry_order`, comparators,
                      `not_found`, `invalid_format`, `serve_raw`
- `src/entry.rs`    : `Entry`, `Entry::from`

Modelling conventions:
- OS strings (`OsStr` / `OsString`) are byte sequences, modelled as `List Nat`
  (each element a byte value < 256 in all intended uses).
- Rust `Path` components are modelled directly as a list of components plus an
  `absolute` flag (Unix paths; Windows prefixes are out of scope).
- Filesystem access is modelled by an explicit `FS` record of pure functions;
  `Option` models `io::Result` (`none` = I/O error).
- A Rust `panic!` / `.unwrap()` on `None`/`Err` is modelled by a distinguished
  `HandleResult.panic` outcome.
- External collaborators (MIME guessing, Markdown conversion, chrono time
  formatting, the pluggable `Renderer`) are passed in as function-valued
  parameters, mirroring their interface boundary in the spec.
-/

namespace IronArchivist

/-! ## Bytes, percent-decoding and UTF-8 -/

/-- Value of an ASCII hex digit byte, as used by `url::percent_encoding`. -/
def hexVal (c : Nat) : Option Nat :=
  if 48 ≤ c ∧ c ≤ 57 then some (c - 48)
  else if 65 ≤ c ∧ c ≤ 70 then some (c - 55)
  else if 97 ≤ c ∧ c ≤ 102 then some (c - 87)
  else none

/-- `url::percent_encoding::percent_decode` on a byte sequence: each `%XY`
with two hex digits becomes the byte `0xXY`; a malformed escape is passed
through unchanged. -/
def percentDecode : List Nat → List Nat
  | [] => []
  | 37 :: a :: b :: rest =>
    match hexVal a, hexVal b with
    | some x, some y => (16 * x + y) :: percentDecode rest
    | _, _ => 37 :: percentDecode (a :: b :: rest)
  | c :: rest => c :: percentDecode rest

/-- UTF-8 encoding of a single scalar value (Lean `Char`s are scalar values). -/
def charBytes (c : Char) : List Nat :=
  let n := c.toNat
  if n < 0x80 then [n]
  else if n < 0x800 then [0xC0 + n / 64, 0x80 + n % 64]
  else if n < 0x10000 then [0xE0 + n / 4096, 0x80 + (n / 64) % 64, 0x80 + n % 64]
  else [0xF0 + n / 262144, 0x80 + (n / 4096) % 64, 0x80 + (n / 64) % 64, 0x80 + n % 64]

/-- The UTF-8 bytes of a string (the representation Rust `String`/`str` use). -/
def strBytes (s : String) : List Nat :=
  s.data.flatMap charBytes

/-- Is `b` a UTF-8 continuation byte? -/
def contByte (b : Nat) : Bool := 0x80 ≤ b && b ≤ 0xBF

/-- Strict UTF-8 decoding of a byte sequence, as `str::from_utf8` /
`Cow::decode_utf8` perform it: rejects overlong encodings, surrogates and
values above `0x10FFFF`. Returns the decoded characters, or `none` when the
bytes are not valid UTF-8. -/
def utf8Decode : List Nat → Option (List Char)
  | [] => some []
  | b1 :: t1 =>
    if b1 < 0x80 then
      (utf8Decode t1).map (fun cs => Char.ofNat b1 :: cs)
    else
      match t1 with
      | [] => none
      | b2 :: t2 =>
        if 0xC2 ≤ b1 ∧ b1 ≤ 0xDF then
          if contByte b2 then
            (utf8Decode t2).map (fun cs =>
              Char.ofNat ((b1 - 0xC0) * 64 + (b2 - 0x80)) :: cs)
          else none
        else
          match t2 with
          | [] => none
          | b3 :: t3 =>
            if 0xE0 ≤ b1 ∧ b1 ≤ 0xEF then
              if (if b1 = 0xE0 then 0xA0 ≤ b2 && b2 ≤ 0xBF
                  else if b1 = 0xED then 0x80 ≤ b2 && b2 ≤ 0x9F
                  else contByte b2) && contByte b3 then
                (utf8Decode t3).map (fun cs =>
                  Char.ofNat ((b1 - 0xE0) * 4096 + (b2 - 0x80) * 64 + (b3 - 0x80)) :: cs)
              else none
            else
              match t3 with
              | [] => none
              | b4 :: t4 =>
                if 0xF0 ≤ b1 ∧ b1 ≤ 0xF4 then
                  if (if b1 = 0xF0 then 0x90 ≤ b2 && b2 ≤ 0xBF
                      else if b1 = 0xF4 then 0x80 ≤ b2 && b2 ≤ 0x8F
                      else contByte b2) && contByte b3 && contByte b4 then
                    (utf8Decode t4).map (fun cs =>
                      Char.ofNat ((b1 - 0xF0) * 262144 + (b2 - 0x80) * 4096
                                  + (b3 - 0x80) * 64 + (b4 - 0x80)) :: cs)
                  else none
                else none

/-- Whether a byte sequence is valid UTF-8 (`str::from_utf8(..).is_ok()`). -/
def validUtf8 (b : List Nat) : Bool := (utf8Decode b).isSome

/-- Byte-wise lexicographic comparison, the `Ord` instance of `OsString`. -/
def byteCmp : List Nat → List Nat → Ordering
  | [], [] => .eq
  | [], _ :: _ => .lt
  | _ :: _, [] => .gt
  | a :: as_, b :: bs =>
    match compare a b with
    | .eq => byteCmp as_ bs
    | o => o

/-! ## Paths (`std::path`) -/

/-- A component of a Unix path, as produced by `Path::components()`
(`Component::Prefix` is Windows-only and out of scope). -/
inductive Comp where
  | curDir
  | parentDir
  | normal (bytes : List Nat)
deriving DecidableEq, Repr

/-- A Unix path: an absolute-ness flag (the `RootDir` component) plus the
remaining components in order. -/
structure FilePath where
  absolute : Bool
  components : List Comp
deriving DecidableEq, Repr

/-- Split a byte sequence at `/` (byte 47), keeping empty pieces. -/
def splitSlash : List Nat → List (List Nat)
  | [] => [[]]
  | 47 :: rest => [] :: splitSlash rest
  | c :: rest =>
    match splitSlash rest with
    | p :: ps => (c :: p) :: ps
    | [] => [[c]]

/-- One piece of a path string as a component: empty pieces and repeated
separators vanish, `.` is `CurDir`, `..` is `ParentDir`. -/
def pieceToComp (b : List Nat) : Option Comp :=
  if b = [] then none
  else if b = [46] then some .curDir
  else if b = [46, 46] then some .parentDir
  else some (.normal b)

/-- Parse the components of a path string (given as UTF-8 bytes). -/
def parseComps (b : List Nat) : List Comp :=
  (splitSlash b).filterMap pieceToComp

/-- `PathBuf::push` of a string `s` (as UTF-8 bytes): an absolute `s`
replaces the whole path, otherwise its components are appended. -/
def pushStr (p : FilePath) (s : List Nat) : FilePath :=
  if s.head? = some 47 then { absolute := true, components := parseComps s }
  else { p with components := p.components ++ parseComps s }

/-- `Path::join`: joining an absolute path replaces the receiver. -/
def joinPath (a b : FilePath) : FilePath :=
  if b.absolute then b
  else { absolute := a.absolute, components := a.components ++ b.components }

/-- The path of a directory child named `name` (`DirEntry::path()`). -/
def childPath (dir : FilePath) (name : List Nat) : FilePath :=
  { dir with components := dir.components ++ [Comp.normal name] }

/-- The component list `Path::components()` yields: `CurDir` components are
dropped except a single leading one on a relative path. -/
def normComps (p : FilePath) : List Comp :=
  let rest := p.components.filter (fun c => c != Comp.curDir)
  if !p.absolute && p.components.head? == some Comp.curDir then Comp.curDir :: rest
  else rest

/-- `Path::file_name()`: the last component when it is `Normal`. -/
def fileNameOf (p : FilePath) : Option (List Nat) :=
  match (normComps p).getLast? with
  | some (Comp.normal b) => some b
  | _ => none

/-- Index of the last `.` (byte 46) in a file name at a position ≥ 1
(a leading dot does not open an extension). -/
def lastDotIdx (b : List Nat) : Option Nat :=
  ((List.range b.length).filter (fun i => 1 ≤ i && b.get? i == some 46)).getLast?

/-- The bytes after the last non-leading `.` of a file name, if any. -/
def extSplit (b : List Nat) : Option (List Nat) :=
  (lastDotIdx b).map (fun i => b.drop (i + 1))

/-- `Path::extension()`. -/
def extensionOf (p : FilePath) : Option (List Nat) :=
  (fileNameOf p).bind extSplit

/-- Lossy display of one OS byte string; the exact replacement-character
formatting of invalid UTF-8 is immaterial to every property below. -/
def osDisplay (b : List Nat) : String :=
  match utf8Decode b with
  | some cs => String.mk cs
  | none => "�"

/-- Display of a component. -/
def compDisplay : Comp → String
  | .curDir => "."
  | .parentDir => ".."
  | .normal b => osDisplay b

/-- `Path::display()`, as used for the user-facing `path_string`. -/
def pathDisplay (p : FilePath) : String :=
  (if p.absolute then "/" else "") ++
    String.intercalate "/" (p.components.map compDisplay)

/-! ## Configuration and the policy engine (`src/config.rs`) -/

/-- `enum AccessMethod`. -/
inductive AccessMethod where
  | markdown
  | verbatim
  | raw
  | dir
deriving DecidableEq, Repr

/-- `AccessMethod::is_file`. -/
def AccessMethod.isFile : AccessMethod → Bool
  | .dir => false
  | _ => true

/-- `AccessMethod.is_dir`. -/
def AccessMethod.isDir : AccessMethod → Bool
  | .dir => true
  | _ => false

/-- `struct Config`. The `BTreeSet<OsString>` fields are built from sets of
Rust `String`s (`RawConfig`), so every element is a valid-UTF-8 byte string;
only membership is ever used, so they are modelled as lists of strings. -/
structure Config where
  rootDir : String
  listen : String
  allowAll : Bool
  allowedExtensions : List String
  allowedFileNames : List String
  blockedFileNames : List String
  markdown : List String
deriving Repr

/-- `BTreeSet<OsString>::contains` applied to an OS byte string: byte
equality against the UTF-8 bytes of some set element. -/
def osContains (set : List String) (b : List Nat) : Bool :=
  set.any (fun s => strBytes s == b)

/-- `s.to_str().unwrap_or("")` followed by `str::starts_with(".")`, at the
byte level: an invalid-UTF-8 name yields the empty string, which starts
with nothing. -/
def startsWithDot (b : List Nat) : Bool :=
  (if validUtf8 b then b else []).head? == some 46

/-- Does one component trip the safety pass of `Config::method_for`?
`Normal` components are denied when dot-prefixed-and-not-allowed or blocked;
`ParentDir` is always denied; everything else is skipped. The source's
early-returning `for` loop denies exactly when some component satisfies
this predicate. -/
def denyComp (cfg : Config) : Comp → Bool
  | .normal b =>
    (!b.isEmpty && startsWithDot b && !osContains cfg.allowedFileNames b)
      || osContains cfg.blockedFileNames b
  | .parentDir => true
  | _ => false

/-- The safety-pass loop of `Config::method_for` over `path.components()`. -/
def denyScan (cfg : Config) (p : FilePath) : Bool :=
  (normComps p).any (denyComp cfg)

/-- Filesystem metadata visible to the engine (`fs::Metadata`):
directory-ness, and the modification time (`none` when `modified()` errors). -/
structure Meta where
  isDir : Bool
  modified : Option Nat
deriving DecidableEq, Repr

/-- A directory child as enumerated by `fs::read_dir` (`DirEntry`): its file
name as OS bytes.  Its path and metadata are recovered through the `FS`. -/
structure DirEntry where
  name : List Nat
deriving DecidableEq, Repr

/-- The filesystem, as a record of pure functions standing for the
`std::fs` calls the engine makes.  `none` models an `io::Error`:
for `fileContent`, the outer `Option` is `File::open` and the inner one is
`read_to_string` (which fails on non-UTF-8 content); for `readDir`, the
element-level `Option` is the per-entry `io::Result` that
`.flat_map(|e| e)` silently drops. -/
structure FS where
  metadata : FilePath → Option Meta
  fileContent : FilePath → Option (Option String)
  readDir : FilePath → Option (List (Option DirEntry))

/-- `Config::method_for`.  `mime` is the external `mime_guess` collaborator:
it tells whether the guessed MIME of an extension has top-level type `Text`.
`Except Unit` models `io::Result` (the only error source is the initial
`path.metadata()?`). -/
def methodFor (mime : String → Bool) (cfg : Config) (fs : FS) (p : FilePath) :
    Except Unit (Option AccessMethod) :=
  match fs.metadata p with
  | none => .error ()
  | some md =>
    let fileName := (fileNameOf p).getD []
    if denyScan cfg p then .ok none
    else if md.isDir then .ok (some .dir)
    else
      match extensionOf p with
      | none =>
        if osContains cfg.allowedFileNames fileName || cfg.allowAll then
          .ok (some .verbatim)
        else .ok none
      | some ext =>
        if !cfg.allowAll && !osContains cfg.allowedExtensions ext
            && !osContains cfg.allowedFileNames fileName then .ok none
        else if osContains cfg.markdown ext then .ok (some .markdown)
        else
          match utf8Decode ext with
          | none => .ok none
          | some cs => if mime (String.mk cs) then .ok (some .verbatim) else .ok (some .raw)

/-- The root path of an `Archivist`: `PathBuf::from(Path::new(&config.root_dir))`. -/
def rootPath (cfg : Config) : FilePath :=
  pushStr { absolute := false, components := [] } (strBytes cfg.rootDir)

/-! ## Listing entries and comparators (`src/entry.rs`, `src/archivist.rs`) -/

/-- External collaborators of the dispatcher: the `mime_guess` text test,
the `pulldown_cmark` Markdown-to-HTML conversion, and the `chrono`
timestamp formatting of `Entry::from`. -/
structure Ext where
  mimeText : String → Bool
  mdToHtml : String → String
  fmtTime : Nat → String

/-- `struct Entry` (`src/entry.rs`): the presentation projection of a child. -/
structure Entry where
  isDir : Bool
  fileName : String
  modified : String
deriving DecidableEq, Repr

/-- `Entry::from(e)`: fails (`none`) when the child's metadata cannot be
read, its name is not valid UTF-8 (`into_string`), or its modification
time cannot be read. -/
def entryFrom (ex : Ext) (fs : FS) (dir : FilePath) (name : List Nat) : Option Entry :=
  match fs.metadata (childPath dir name) with
  | none => none
  | some md =>
    match utf8Decode name with
    | none => none
    | some cs =>
      match md.modified with
      | none => none
      | some t => some { isDir := md.isDir, fileName := String.mk cs, modified := ex.fmtTime t }

/-- `enum EntryOrder`. -/
inductive EntryOrder where
  | lexicographical
  | chronological
deriving DecidableEq, Repr

/-- `cmp_entry_by_name`: byte-wise comparison of the two file names. -/
def cmpEntryByName (e1 e2 : DirEntry) : Ordering :=
  byteCmp e1.name e2.name

/-- `try_cmp_entry_by_modified`: read both children's metadata and
modification times, then compare; any failure aborts with `none`. -/
def tryCmpEntryByModified (fs : FS) (dir : FilePath) (e1 e2 : DirEntry) :
    Option Ordering := do
  let m1 ← fs.metadata (childPath dir e1.name)
  let t1 ← m1.modified
  let m2 ← fs.metadata (childPath dir e2.name)
  let t2 ← m2.modified
  pure (compare t1 t2)

/-- `cmp_entry_by_modified`: the chronological comparator, falling back to
`Ordering::Equal` whenever either side's time cannot be read. -/
def cmpEntryByModified (fs : FS) (dir : FilePath) (e1 e2 : DirEntry) : Ordering :=
  (tryCmpEntryByModified fs dir e1 e2).getD .eq

/-- Stable insertion into a sorted list: the new element goes before the
first element it does not compare greater than. -/
def insertOrd (cmp : α → α → Ordering) (a : α) : List α → List α
  | [] => [a]
  | x :: xs =>
    match cmp a x with
    | .gt => x :: insertOrd cmp a xs
    | _ => a :: x :: xs

/-- A stable comparator sort, modelling `Vec::sort_by`. -/
def sortByOrd (cmp : α → α → Ordering) : List α → List α
  | [] => []
  | a :: rest => insertOrd cmp a (sortByOrd cmp rest)

/-- The visibility filter of the directory branch: drop per-entry
enumeration errors (`.flat_map(|e| e)`), then keep the children for which
`method_for(..).unwrap_or(None).is_some()`. -/
def visibleChildren (mime : String → Bool) (cfg : Config) (fs : FS)
    (dir : FilePath) (items : List (Option DirEntry)) : List DirEntry :=
  (items.filterMap id).filter (fun e =>
    match methodFor mime cfg fs (childPath dir e.name) with
    | .ok (some _) => true
    | _ => false)

/-! ## The request dispatcher (`src/archivist.rs`) -/

/-- An incoming request, at the interface the handler reads it:
the percent-encoded bytes of each URL path segment, the parsed query map
(`none` when `UrlEncodedQuery` errors, e.g. on an empty query string), and
the `mount::OriginalUrl` extension's path segments when mounted. -/
structure Request where
  segments : List (List Nat)
  query : Option (List (String × List String))
  originalUrl : Option (List (List Nat))

/-- The pluggable `Renderer` capability; `none` models a renderer returning
`Err(IronError)`. -/
structure RendererM where
  renderDir : String → List Entry → Option String
  renderVerbatim : String → String → Option String
  renderMarkdown : String → String → Option String
  renderError : String → Nat → String → Option String

/-- A response body: a rendered HTML page, or the raw file at a path
(iron serves the bytes of the path passed to `Response::with`). -/
inductive Body where
  | page (content : String)
  | rawFile (p : FilePath)
deriving DecidableEq, Repr

/-- The observable outcome of one `Archivist::handle` invocation. -/
inductive HandleResult where
  | resp (status : Nat) (body : Body)
  | redirect
  | ironError
  | panicked
deriving DecidableEq, Repr

/-- `Archivist::not_found`: render the 404 error page; the HTTP status is
`status::NotFound`. -/
def notFoundResult (R : RendererM) (pathString : String) : HandleResult :=
  match R.renderError pathString 404 "The requested archive is not found" with
  | some s => .resp 404 (.page s)
  | none => .ironError

/-- `Archivist::invalid_format`: the error page is rendered with code 416,
but the HTTP status attached to the response is `status::NotFound` (404)
in the source. -/
def invalidFormatResult (R : RendererM) (pathString : String) : HandleResult :=
  match R.renderError pathString 416 "The requested file is not valid UTF8" with
  | some s => .resp 404 (.page s)
  | none => .ironError

/-- `get_entry_order`: the first value of the `order` query parameter, when
it is one of the two recognized tokens. -/
def getEntryOrder (req : Request) : Option EntryOrder :=
  match req.query with
  | some qs =>
    ((qs.lookup "order").bind (fun vs => vs.head?)).bind (fun o =>
      if o = "lexicographical" then some EntryOrder.lexicographical
      else if o = "chronological" then some EntryOrder.chronological
      else none)
  | none => none

/-- Sort the filtered children as the requested order dictates; an absent or
unrecognized order applies no sort at all (`None => ()`). -/
def sortChildren (req : Request) (fs : FS) (dir : FilePath)
    (l : List DirEntry) : List DirEntry :=
  match getEntryOrder req with
  | some .lexicographical => sortByOrd cmpEntryByName l
  | some .chronological => sortByOrd (cmpEntryByModified fs dir) l
  | none => l

/-- The path-construction loop at the top of `Archivist::handle`:
percent-decode each segment, `decode_utf8().unwrap()` it (`none` here is
the panic), and push it onto the growing `PathBuf`. -/
def buildPathFrom (p : FilePath) : List (List Nat) → Option FilePath
  | [] => some p
  | seg :: rest =>
    let dec := percentDecode seg
    if validUtf8 dec then buildPathFrom (pushStr p dec) rest
    else none

/-- The decoded request path. -/
def buildPath (segs : List (List Nat)) : Option FilePath :=
  buildPathFrom { absolute := false, components := [] } segs

/-- The mount check: when a `mount::OriginalUrl` is present and its last
segment differs from the handled URL's last segment, redirect. -/
def mountMismatch (req : Request) : Bool :=
  match req.originalUrl with
  | some orig => orig.getLast? != req.segments.getLast?
  | none => false

/-- Does the request URL path end in a trailing empty segment? -/
def trailingSlash (req : Request) : Bool :=
  req.segments.getLast? == some []

/-- `Archivist::handle` (`src/archivist.rs`), for an `Archivist` with
`raw == rawMode`, configuration `cfg`, renderer `R` and externals `ex`. -/
def handle (R : RendererM) (ex : Ext) (rawMode : Bool) (cfg : Config)
    (fs : FS) (req : Request) : HandleResult :=
  match buildPath req.segments with
  | none => .panicked
  | some path =>
    let pathString := pathDisplay path
    if mountMismatch req then .redirect
    else
      let full := joinPath (rootPath cfg) path
      match methodFor ex.mimeText cfg fs full with
      | .ok (some access) =>
        if (trailingSlash req && access.isFile)
            || (!trailingSlash req && access.isDir) then
          notFoundResult R pathString
        else if rawMode then
          if access.isFile then .resp 200 (.rawFile full)
          else notFoundResult R pathString
        else
          match access with
          | .markdown =>
            match fs.fileContent full with
            | none => notFoundResult R pathString
            | some none => invalidFormatResult R pathString
            | some (some content) =>
              match R.renderMarkdown pathString (ex.mdToHtml content) with
              | some s => .resp 200 (.page s)
              | none => .ironError
          | .verbatim =>
            match fs.fileContent full with
            | none => notFoundResult R pathString
            | some none => invalidFormatResult R pathString
            | some (some content) =>
              match R.renderVerbatim pathString content with
              | some s => .resp 200 (.page s)
              | none => .ironError
          | .raw => .resp 200 (.rawFile full)
          | .dir =>
            match fs.readDir full with
            | none => .panicked
            | some items =>
              let sorted :=
                sortChildren req fs full (visibleChildren ex.mimeText cfg fs full items)
              match sorted.mapM (fun e => entryFrom ex fs full e.name) with
              | none => .panicked
              | some entries =>
                match R.renderDir pathString entries with
                | some s => .resp 200 (.page s)
                | none => .ironError
      | _ => notFoundResult R pathString

/-! ## General lemmas about the safety pass -/

theorem denyComp_ne_curDir {cfg : Config} {c : Comp} (h : denyComp cfg c = true) :
    c ≠ Comp.curDir := by
  intro he
  subst he
  simp [denyComp] at h

theorem mem_normComps {p : FilePath} {c : Comp} (hc : c ∈ p.components)
    (hne : c ≠ Comp.curDir) : c ∈ normComps p := by
  have hf : c ∈ p.components.filter (fun x => x != Comp.curDir) :=
    List.mem_filter.2 ⟨hc, by simpa using hne⟩
  unfold normComps
  by_cases hh : (!p.absolute && p.components.head? == some Comp.curDir) = true
  · simp only [hh, if_true]
    exact List.mem_cons_of_mem _ hf
  · simp only [hh, if_false]
    exact hf

/-- Whenever some component of the path satisfies the denial predicate of the
safety pass and the path's metadata is readable, `method_for` returns
`Ok(None)`. -/
theorem methodFor_denies {mime : String → Bool} {cfg : Config} {fs : FS}
    {p : FilePath} {md : Meta} {c : Comp}
    (hmd : fs.metadata p = some md) (hc : c ∈ p.components)
    (hd : denyComp cfg c = true) :
    methodFor mime cfg fs p = .ok none := by
  have hscan : denyScan cfg p = true :=
    List.any_eq_true.2 ⟨c, mem_normComps hc (denyComp_ne_curDir hd), hd⟩
  unfold methodFor
  rw [hmd]
  simp [hscan]

/-! ## Shared concrete fixtures -/

/-- A configuration with `allow_all = true`, empty name/extension sets and
the default markdown set, rooted at `root`. -/
def mkCfg (root : String) : Config :=
  ⟨root, "localhost:5000", true, [], [], [], ["md"]⟩

/-- Concrete external collaborators: `mime_guess` reports top-level `Text`
for `txt` (its well-known table), Markdown conversion and time formatting
are simple concrete functions. -/
def extM : Ext :=
  { mimeText := fun s => s = "txt"
    mdToHtml := id
    fmtTime := fun t => toString t }

/-- A concrete renderer that reflects its inputs into the body, making the
entry order and the error contract observable in responses. -/
def RM : RendererM :=
  { renderDir := fun _ es => some (String.intercalate "," (es.map (fun e => e.fileName)))
    renderVerbatim := fun _ c => some c
    renderMarkdown := fun _ c => some c
    renderError := fun _ c m => some (toString c ++ ":" ++ m) }

/-! ## C5: `..` components are always denied -/

/-- C5: for every configuration (including `allow_all = true`) and every
path containing a `..` component whose metadata is readable,
`Config::method_for` returns `Ok(None)` (Denied). -/
theorem C5_parentDir_denied (mime : String → Bool) (cfg : Config) (fs : FS)
    (p : FilePath) (md : Meta) (hmd : fs.metadata p = some md)
    (hmem : Comp.parentDir ∈ p.components) :
    methodFor mime cfg fs p = .ok none :=
  methodFor_denies hmd hmem rfl

def fsC5 : FS :=
  { metadata := fun p =>
      if p = { absolute := false, components := [Comp.parentDir, Comp.normal [97]] } then
        some { isDir := false, modified := some 0 }
      else none
    fileContent := fun _ => none
    readDir := fun _ => none }

/-- Witness for C5 at the concrete path `../a` under an allow-all config. -/
theorem C5_witness :
    fsC5.metadata { absolute := false, components := [Comp.parentDir, Comp.normal [97]] }
      = some { isDir := false, modified := some 0 } ∧
    methodFor extM.mimeText (mkCfg ".") fsC5
      { absolute := false, components := [Comp.parentDir, Comp.normal [97]] } = .ok none :=
  ⟨rfl, C5_parentDir_denied extM.mimeText (mkCfg ".") fsC5 _ _ rfl (by decide)⟩

/-! ## C7: blocked file names are always denied -/

/-- C7: for every configuration and every path one of whose components is a
name in the blocked-file-names set (byte-equal to a set element), with
readable metadata, `Config::method_for` returns `Ok(None)` — even when the
same name is in the allowed-file-names set and `allow_all` is true. -/
theorem C7_blocked_denied (mime : String → Bool) (cfg : Config) (fs : FS)
    (p : FilePath) (md : Meta) (b : List Nat)
    (hmd : fs.metadata p = some md)
    (hmem : Comp.normal b ∈ p.components)
    (hb : osContains cfg.blockedFileNames b = true) :
    methodFor mime cfg fs p = .ok none :=
  methodFor_denies hmd hmem (by simp [denyComp, hb])

def cfgC7 : Config :=
  ⟨".", "localhost:5000", true, [], ["secret"], ["secret"], ["md"]⟩

def fsC7 : FS :=
  { metadata := fun p =>
      if p = { absolute := false, components := [Comp.normal (strBytes "secret")] } then
        some { isDir := false, modified := some 0 }
      else none
    fileContent := fun _ => none
    readDir := fun _ => none }

/-- Witness for C7: `secret` is both allowed and blocked, `allow_all` is
true, and the decision is still Denied. -/
theorem C7_witness :
    fsC7.metadata { absolute := false, components := [Comp.normal (strBytes "secret")] }
      = some { isDir := false, modified := some 0 } ∧
    osContains cfgC7.blockedFileNames (strBytes "secret") = true ∧
    osContains cfgC7.allowedFileNames (strBytes "secret") = true ∧
    cfgC7.allowAll = true ∧
    methodFor extM.mimeText cfgC7 fsC7
      { absolute := false, components := [Comp.normal (strBytes "secret")] } = .ok none :=
  ⟨rfl, by decide, by decide, rfl,
   C7_blocked_denied extM.mimeText cfgC7 fsC7 _ _ (strBytes "secret") rfl (by decide) (by decide)⟩

/-! ## C6: dot-prefixed names — denial holds only for valid-UTF-8 names -/

def cexBytesC6 : List Nat := [46, 255]

def fsC6 : FS :=
  { metadata := fun p =>
      if p = { absolute := false, components := [Comp.normal cexBytesC6] } then
        some { isDir := true, modified := some 0 }
      else none
    fileContent := fun _ => none
    readDir := fun _ => none }

/-- C6 counterexample: the component `[0x2E, 0xFF]` starts with the `.` byte
and is not in the (empty) allowed-file-names set, yet `method_for` grants
`Dir` access: the source checks `s.to_str().unwrap_or("")`, and a
non-UTF-8 name decays to `""`, which does not start with `.`. -/
theorem C6_counterexample :
    cexBytesC6.head? = some 46 ∧
    osContains (mkCfg ".").allowedFileNames cexBytesC6 = false ∧
    validUtf8 cexBytesC6 = false ∧
    methodFor extM.mimeText (mkCfg ".") fsC6
      { absolute := false, components := [Comp.normal cexBytesC6] } = .ok (some .dir) :=
  ⟨rfl, rfl, rfl, rfl⟩

/-- C6 (amended): for every configuration and every path with a component
whose name is valid UTF-8, starts with `.`, and is not in the
allowed-file-names set, `Config::method_for` returns `Ok(None)` (given
readable metadata), even when `allow_all` is true. -/
theorem C6_dotfile_denied (mime : String → Bool) (cfg : Config) (fs : FS)
    (p : FilePath) (md : Meta) (b : List Nat)
    (hmd : fs.metadata p = some md)
    (hmem : Comp.normal b ∈ p.components)
    (hv : validUtf8 b = true)
    (hh : b.head? = some 46)
    (hna : osContains cfg.allowedFileNames b = false) :
    methodFor mime cfg fs p = .ok none := by
  refine methodFor_denies hmd hmem ?_
  cases b with
  | nil => cases hh
  | cons x xs =>
    simp only [List.head?] at hh
    injection hh with hx
    subst hx
    simp [denyComp, startsWithDot, hv, hna]

def fsC6w : FS :=
  { metadata := fun p =>
      if p = { absolute := false, components := [Comp.normal (strBytes ".env")] } then
        some { isDir := false, modified := some 0 }
      else none
    fileContent := fun _ => none
    readDir := fun _ => none }

/-- Witness for the amended C6 at the concrete dot-file `.env` under an
allow-all config. -/
theorem C6_witness :
    fsC6w.metadata { absolute := false, components := [Comp.normal (strBytes ".env")] }
      = some { isDir := false, modified := some 0 } ∧
    validUtf8 (strBytes ".env") = true ∧
    (strBytes ".env").head? = some 46 ∧
    osContains (mkCfg ".").allowedFileNames (strBytes ".env") = false ∧
    methodFor extM.mimeText (mkCfg ".") fsC6w
      { absolute := false, components := [Comp.normal (strBytes ".env")] } = .ok none :=
  ⟨rfl, by decide, by decide, by decide,
   C6_dotfile_denied extM.mimeText (mkCfg ".") fsC6w _ _ (strBytes ".env") rfl (by decide)
     (by decide) (by decide) (by decide)⟩

/-! ## C9: chronological comparator on unreadable modification times -/

/-- C9: when a child's modification time cannot be read (its metadata or
`modified()` call errors), the chronological comparator
`cmp_entry_by_modified` yields `Equal` against every other entry — in
particular against any other unreadable entry — and being a total function
into `Ordering`, it propagates no error. -/
theorem C9_unreadable_modified_equal (fs : FS) (dir : FilePath) (e1 : DirEntry)
    (h1 : (fs.metadata (childPath dir e1.name)).bind (fun m => m.modified) = none)
    (e2 : DirEntry) :
    cmpEntryByModified fs dir e1 e2 = .eq := by
  unfold cmpEntryByModified tryCmpEntryByModified
  cases hm : fs.metadata (childPath dir e1.name) with
  | none => simp [hm, Option.bind]
  | some m1 =>
    rw [hm] at h1
    simp only [Option.some_bind] at h1
    simp [hm, h1, Option.bind]

def dirC9 : FilePath := { absolute := false, components := [Comp.normal [100]] }

def fsC9 : FS :=
  { metadata := fun p =>
      if p = childPath dirC9 [97] then some { isDir := false, modified := none }
      else none
    fileContent := fun _ => none
    readDir := fun _ => none }

/-- Witness for C9: two children whose modification times are unreadable
(one with `modified()` failing, one with unreadable metadata) compare
`Equal`. -/
theorem C9_witness :
    (fsC9.metadata (childPath dirC9 (DirEntry.mk [97]).name)).bind (fun m => m.modified) = none ∧
    (fsC9.metadata (childPath dirC9 (DirEntry.mk [98]).name)).bind (fun m => m.modified) = none ∧
    cmpEntryByModified fsC9 dirC9 (DirEntry.mk [97]) (DirEntry.mk [98]) = .eq :=
  ⟨rfl, rfl, C9_unreadable_modified_equal fsC9 dirC9 (DirEntry.mk [97]) rfl (DirEntry.mk [98])⟩

/-! ## C1: absent or unrecognized `order` applies no sorting at all -/

def cfgC1 : Config := mkCfg "r"

def dirC1 : FilePath := { absolute := false, components := [Comp.normal [114], Comp.normal [100]] }

def fsC1 : FS :=
  { metadata := fun p =>
      if p = dirC1 then some { isDir := true, modified := some 0 }
      else if p = childPath dirC1 [98] then some { isDir := false, modified := some 5 }
      else if p = childPath dirC1 [97] then some { isDir := false, modified := some 3 }
      else none
    fileContent := fun _ => none
    readDir := fun p => if p = dirC1 then some [some ⟨[98]⟩, some ⟨[97]⟩] else none }

def reqC1 : Request :=
  { segments := [[100], []], query := some [("order", ["bogus"])], originalUrl := none }

/-- C1 counterexample: with an unrecognized `order=bogus`, the directory
`r/d` whose enumeration yields `b` before `a` is rendered in that same
order `b, a` — not in lexicographical byte-wise ascending order (`byteCmp`
says `b > a`). The `None` arm of the sort dispatch performs no sort. -/
theorem C1_counterexample :
    getEntryOrder reqC1 = none ∧
    byteCmp [98] [97] = Ordering.gt ∧
    handle RM extM false cfgC1 fsC1 reqC1 = .resp 200 (.page "b,a") :=
  ⟨rfl, rfl, rfl⟩

/-- C1 (amended): when the `order` query parameter is absent or not one of
the recognized tokens (`getEntryOrder` yields `none`), the handler applies
no sorting: the listing preserves the enumeration order of the filtered
children. -/
theorem C1_no_order_no_sort (req : Request) (fs : FS) (dir : FilePath)
    (l : List DirEntry) (h : getEntryOrder req = none) :
    sortChildren req fs dir l = l := by
  unfold sortChildren
  rw [h]

/-- Witness for the amended C1 at a concrete unrecognized order token. -/
theorem C1_no_order_no_sort_witness :
    getEntryOrder reqC1 = none ∧
    sortChildren reqC1 fsC1 dirC1 [⟨[98]⟩, ⟨[97]⟩] = [⟨[98]⟩, ⟨[97]⟩] :=
  ⟨rfl, C1_no_order_no_sort reqC1 fsC1 dirC1 [⟨[98]⟩, ⟨[97]⟩] rfl⟩

/-! ## C2: invalid-UTF-8 file content — 416 body, but HTTP status 404 -/

def pathC2 : FilePath := { absolute := false, components := [Comp.normal (strBytes "a.txt")] }

def fullC2 : FilePath :=
  { absolute := false, components := [Comp.normal [114], Comp.normal (strBytes "a.txt")] }

def fsC2 : FS :=
  { metadata := fun p => if p = fullC2 then some { isDir := false, modified := some 0 } else none
    fileContent := fun p => if p = fullC2 then some none else none
    readDir := fun _ => none }

def reqC2 : Request := { segments := [strBytes "a.txt"], query := none, originalUrl := none }

/-- C2: a request dispatched with the Verbatim method whose file content is
not valid UTF-8 (`read_to_string` fails). The handler renders the error
body through the Renderer's error contract with code 416 and message
"The requested file is not valid UTF8" — but the HTTP response status it
attaches is `status::NotFound`, i.e. 404, not 416 as the claim states. -/
theorem C2_code_divergence :
    methodFor extM.mimeText (mkCfg "r") fsC2 fullC2 = .ok (some .verbatim) ∧
    fsC2.fileContent fullC2 = some none ∧
    handle RM extM false (mkCfg "r") fsC2 reqC2
      = .resp 404 (.page "416:The requested file is not valid UTF8") :=
  ⟨rfl, rfl, rfl⟩

/-! ## C3: non-UTF-8 percent-decoded segment — the handler panics -/

def reqC3 : Request := { segments := [[37, 70, 70]], query := none, originalUrl := none }

def fsC3 : FS :=
  { metadata := fun _ => none
    fileContent := fun _ => none
    readDir := fun _ => none }

/-- C3: the URL path segment `%FF` percent-decodes to the byte `0xFF`,
which is not valid UTF-8; the source calls `.decode_utf8().unwrap()` on it
and panics instead of producing a structured error response. -/
theorem C3_code_divergence :
    percentDecode [37, 70, 70] = [255] ∧
    utf8Decode [255] = none ∧
    handle RM extM false (mkCfg "r") fsC3 reqC3 = .panicked :=
  ⟨rfl, rfl, rfl⟩

/-! ## C4: unreadable directory enumeration — the handler panics -/

def dirC4 : FilePath := { absolute := false, components := [Comp.normal [114], Comp.normal [100]] }

def fsC4 : FS :=
  { metadata := fun p => if p = dirC4 then some { isDir := true, modified := some 0 } else none
    fileContent := fun _ => none
    readDir := fun _ => none }

def reqC4 : Request := { segments := [[100], []], query := none, originalUrl := none }

/-- C4: a directory that passes policy (its metadata is readable and it is
a directory, so `method_for` yields `Dir`) but whose enumeration fails
(`fs::read_dir` errors, e.g. a directory with execute-only permissions).
The source calls `fs::read_dir(full_path).unwrap()` and panics instead of
returning the 404-equivalent error response the claim describes. -/
theorem C4_code_divergence :
    methodFor extM.mimeText (mkCfg "r") fsC4 dirC4 = .ok (some .dir) ∧
    fsC4.readDir dirC4 = none ∧
    handle RM extM false (mkCfg "r") fsC4 reqC4 = .panicked :=
  ⟨rfl, rfl, rfl⟩

/-! ## C8: trailing-slash invariant -/

/-- C8: whenever the policy decision for the resolved path is a file method
while the URL path ends in a trailing empty segment, or a directory method
while it does not, the handler answers with the rendered 404 not-found
response — even though the path exists and passes policy. Holds for both
normal and raw mode. -/
theorem C8_trailing_slash_mismatch_404 (R : RendererM) (ex : Ext) (rawMode : Bool)
    (cfg : Config) (fs : FS) (req : Request) (path : FilePath) (m : AccessMethod)
    (s : String)
    (hbp : buildPath req.segments = some path)
    (hmm : mountMismatch req = false)
    (hmf : methodFor ex.mimeText cfg fs (joinPath (rootPath cfg) path) = .ok (some m))
    (hcond : ((trailingSlash req && m.isFile) || (!trailingSlash req && m.isDir)) = true)
    (hre : R.renderError (pathDisplay path) 404 "The requested archive is not found" = some s) :
    handle R ex rawMode cfg fs req = .resp 404 (.page s) := by
  unfold handle
  rw [hbp]
  simp only [hmm, Bool.false_eq_true, if_false]
  rw [hmf]
  simp only [hcond, if_true]
  unfold notFoundResult
  rw [hre]

def fsC8 : FS :=
  { metadata := fun p => if p = fullC2 then some { isDir := false, modified := some 0 } else none
    fileContent := fun _ => none
    readDir := fun _ => none }

def reqC8 : Request := { segments := [strBytes "a.txt", []], query := none, originalUrl := none }

def pathC8 : FilePath := { absolute := false, components := [Comp.normal (strBytes "a.txt")] }

/-- Witness for C8: the regular file `r/a.txt` (Verbatim method) requested
as `/a.txt/` (trailing slash) yields the rendered 404 response. -/
theorem C8_witness :
    buildPath reqC8.segments = some pathC8 ∧
    mountMismatch reqC8 = false ∧
    methodFor extM.mimeText (mkCfg "r") fsC8 (joinPath (rootPath (mkCfg "r")) pathC8)
      = .ok (some .verbatim) ∧
    ((trailingSlash reqC8 && AccessMethod.verbatim.isFile)
      || (!trailingSlash reqC8 && AccessMethod.verbatim.isDir)) = true ∧
    RM.renderError (pathDisplay pathC8) 404 "The requested archive is not found"
      = some "404:The requested archive is not found" ∧
    handle RM extM false (mkCfg "r") fsC8 reqC8
      = .resp 404 (.page "404:The requested archive is not found") :=
  ⟨rfl, rfl, rfl, rfl, rfl,
   C8_trailing_slash_mismatch_404 RM extM false (mkCfg "r") fsC8 reqC8 pathC8
     AccessMethod.verbatim "404:The requested archive is not found" rfl rfl rfl rfl rfl⟩

/-! ## C10: a denied component in the configured root -/

theorem pushStr_relative {p : FilePath} {s : List Nat} (hp : p.absolute = false)
    (hs : s.head? ≠ some 47) : (pushStr p s).absolute = false := by
  unfold pushStr
  rw [if_neg hs]
  exact hp

theorem buildPathFrom_relative (segs : List (List Nat)) (p : FilePath)
    (hp : p.absolute = false)
    (hv : ∀ s ∈ segs, validUtf8 (percentDecode s) = true)
    (hrel : ∀ s ∈ segs, (percentDecode s).head? ≠ some 47) :
    ∃ q, buildPathFrom p segs = some q ∧ q.absolute = false := by
  induction segs generalizing p with
  | nil => exact ⟨p, rfl, hp⟩
  | cons s rest ih =>
    have hvs : validUtf8 (percentDecode s) = true := hv s (List.mem_cons_self s rest)
    have hq :=
      ih (pushStr p (percentDecode s))
        (pushStr_relative hp (hrel s (List.mem_cons_self s rest)))
        (fun t ht => hv t (List.mem_cons_of_mem s ht))
        (fun t ht => hrel t (List.mem_cons_of_mem s ht))
    unfold buildPathFrom
    simpa [hvs] using hq

def cfgC10 : Config := mkCfg ".bad"

def tmpTxtC10 : FilePath :=
  { absolute := true, components := [Comp.normal (strBytes "tmp"), Comp.normal (strBytes "a.txt")] }

def fsC10 : FS :=
  { metadata := fun p => if p = tmpTxtC10 then some { isDir := false, modified := some 7 } else none
    fileContent := fun p => if p = tmpTxtC10 then some (some "hello") else none
    readDir := fun _ => none }

def reqC10 : Request :=
  { segments := [strBytes "%2Ftmp%2Fa.txt"], query := none, originalUrl := none }

/-- C10 counterexample: the root `.bad` trips the safety pass (its single
component is dot-prefixed and not allowed), yet the request whose only
segment percent-decodes to the absolute string `/tmp/a.txt` is served with
status 200: `PathBuf::push` of an absolute path replaces the accumulated
path, and `root.join` of an absolute path discards the root, so the root's
denied component never reaches `method_for`. -/
theorem C10_counterexample :
    denyScan cfgC10 (rootPath cfgC10) = true ∧
    handle RM extM false cfgC10 fsC10 reqC10 = .resp 200 (.page "hello") :=
  ⟨rfl, rfl⟩

/-- C10 (amended): if some component of the configured root is denied by
the safety pass, then every request whose segments all percent-decode to
valid UTF-8 relative strings (none starting with `/`), and which is not a
mount redirect, is answered by the not-found path (the rendered 404
response): the joined path contains the root's denied component, so
`method_for` yields `Ok(None)` or an I/O error, and the handler falls to
`not_found` either way. -/
theorem C10_bad_root_denies_relative_requests (R : RendererM) (ex : Ext)
    (rawMode : Bool) (cfg : Config) (fs : FS) (req : Request) (c : Comp)
    (hv : ∀ s ∈ req.segments, validUtf8 (percentDecode s) = true)
    (hrel : ∀ s ∈ req.segments, (percentDecode s).head? ≠ some 47)
    (hmnt : mountMismatch req = false)
    (hc : c ∈ (rootPath cfg).components)
    (hd : denyComp cfg c = true) :
    ∃ p, buildPath req.segments = some p ∧
      handle R ex rawMode cfg fs req = notFoundResult R (pathDisplay p) := by
  obtain ⟨p, hbp, habs⟩ :=
    buildPathFrom_relative req.segments { absolute := false, components := [] } rfl hv hrel
  refine ⟨p, hbp, ?_⟩
  have hjoin : joinPath (rootPath cfg) p
      = { absolute := (rootPath cfg).absolute,
          components := (rootPath cfg).components ++ p.components } := by
    unfold joinPath
    rw [if_neg]
    simp [habs]
  have hcin : c ∈ (joinPath (rootPath cfg) p).components := by
    rw [hjoin]
    exact List.mem_append_left _ hc
  unfold handle
  rw [show buildPath req.segments = some p from hbp]
  simp only [hmnt, Bool.false_eq_true, if_false]
  cases hmd : fs.metadata (joinPath (rootPath cfg) p) with
  | none =>
    have herr : methodFor ex.mimeText cfg fs (joinPath (rootPath cfg) p) = .error () := by
      unfold methodFor
      rw [hmd]
    rw [herr]
  | some md =>
    rw [methodFor_denies hmd hcin hd]

def fsC10w : FS :=
  { metadata := fun _ => none
    fileContent := fun _ => none
    readDir := fun _ => none }

def reqC10w : Request := { segments := [[97]], query := none, originalUrl := none }

/-- Witness for the amended C10: under the root `.bad`, the relative
request `a` is answered by the not-found path. -/
theorem C10_witness :
    (∀ s ∈ reqC10w.segments, validUtf8 (percentDecode s) = true) ∧
    (∀ s ∈ reqC10w.segments, (percentDecode s).head? ≠ some 47) ∧
    mountMismatch reqC10w = false ∧
    Comp.normal (strBytes ".bad") ∈ (rootPath cfgC10).components ∧
    denyComp cfgC10 (Comp.normal (strBytes ".bad")) = true ∧
    (∃ p, buildPath reqC10w.segments = some p ∧
      handle RM extM false cfgC10 fsC10w reqC10w = notFoundResult RM (pathDisplay p)) :=
  ⟨by decide, by decide, rfl, by decide, by decide,
   C10_bad_root_denies_relative_requests RM extM false cfgC10 fsC10w reqC10w
     (Comp.normal (strBytes ".bad")) (by decide) (by decide) rfl (by decide) (by decide)⟩

end IronArchivist
